import Mathlib

/-!
The component DynamicForm of app/page.js

A shallow embedding of the state logic of the `DynamicForm` component:
the two state slots (`fields`, `formSubmitted`) and the event handlers
`addField`, `removeField`, `handleInputChange`, `handleSelectChange`,
`validateForm` and `handleSubmit`.

Modelling conventions.
* A field id is a JavaScript number holding an integer; it is modelled as an
  `Int`. The only arithmetic on ids is the sum `+ 1` in `addField`. The state
  machine (`addField`, `step`, `run`) takes that sum exactly; `addFieldNumber`,
  `stepNumber`, `runNumber` take it in binary64 (`numberAddOne`). The two agree
  on every list whose ids lie in `-2^53 ≤ id < 2^53` and on every run from the
  initial state of fewer than `2^53` events (`runNumber_eq_run`).
* Values and error messages are JavaScript strings, modelled as `String`;
  the truthiness test `!value` on a string is `value = ""`.
* Each handler reads the state of the current render and stores a new state;
  a handler is a function from the old state to the new one.
-/

namespace DynamicForm

/-- One field set of the form: the records stored in the `fields` state slot. -/
structure Field where
  id : Int
  inputValue : String
  selectValue : String
  inputError : String
  selectError : String
  deriving DecidableEq

/-- The two `useState` slots of the component. -/
structure State where
  fields : List Field
  formSubmitted : Bool
  deriving DecidableEq

/-- The initial state: `useState([{ id: 1, ... }])` and `useState(false)`. -/
def initial : State :=
  { fields := [{ id := 1, inputValue := "", selectValue := "", inputError := "", selectError := "" }],
    formSubmitted := false }

/-- The call `Math.max(...xs)` on a list of integers. On the empty list JavaScript
yields `-Infinity`; `addField` guards the call with `fields.length > 0`, so that
case is never evaluated and is given the value `0` here. -/
def mathMax : List Int → Int
  | [] => 0
  | x :: xs => xs.foldl max x

/-- The id computed in `addField`:
`fields.length > 0 ? Math.max(...fields.map(f => f.id)) + 1 : 1`, with the sum taken
exactly. This is the value the code computes whenever the largest id `m` has
`-2^53 ≤ m < 2^53`; see `newIdNumber` for the sum in binary64. -/
def newId (fields : List Field) : Int :=
  if fields.length > 0 then mathMax (fields.map (fun f => f.id)) + 1 else 1

/-- The list stored by `addField`, with the id of `newId`. -/
def addField (fields : List Field) : List Field :=
  fields ++
    [{ id := newId fields, inputValue := "", selectValue := "", inputError := "", selectError := "" }]

/-- The number of times `n` must be halved to fall below `2^53`, searched with
`fuel` halvings: the exponent of the unit in the last place of the binary64
number nearest to `n`. -/
def excessBits : Nat → Nat → Nat
  | 0, _ => 0
  | fuel + 1, n => if n < 2 ^ 53 then 0 else excessBits fuel (n / 2) + 1

/-- The binary64 number nearest to the natural number `n`, ties to the even
significand (the default rounding of JavaScript arithmetic), for `n < 2^1024`:
the significand keeps 53 binary digits. -/
def roundNat (n : Nat) : Nat :=
  let e := excessBits 1024 n
  let q := n / 2 ^ e
  let r := n % 2 ^ e
  let q := if 2 ^ e < 2 * r ∨ (2 * r = 2 ^ e ∧ q % 2 = 1) then q + 1 else q
  q * 2 ^ e

/-- The binary64 number nearest to the integer `x` (rounding is symmetric in the sign). -/
def roundNumber (x : Int) : Int :=
  if x < 0 then -(roundNat x.natAbs : Int) else (roundNat x.natAbs : Int)

/-- The JavaScript sum `x + 1` for a number `x` holding an integer: the exact sum
rounded to binary64. -/
def numberAddOne (x : Int) : Int :=
  roundNumber (x + 1)

/-- The id computed in `addField` with the sum `+ 1` taken in binary64. -/
def newIdNumber (fields : List Field) : Int :=
  if fields.length > 0 then numberAddOne (mathMax (fields.map (fun f => f.id))) else 1

/-- The list stored by `addField` with the sum `+ 1` taken in binary64. -/
def addFieldNumber (fields : List Field) : List Field :=
  fields ++
    [{ id := newIdNumber fields, inputValue := "", selectValue := "", inputError := "",
       selectError := "" }]

/-- The list stored by `removeField(id)`; when the guard `fields.length > 1` fails
nothing is stored and the list stays as it is. -/
def removeField (fields : List Field) (id : Int) : List Field :=
  if fields.length > 1 then fields.filter (fun field => decide (field.id ≠ id)) else fields

/-- The list stored by `handleInputChange(id, value)`. -/
def handleInputChange (fields : List Field) (formSubmitted : Bool) (id : Int) (value : String) :
    List Field :=
  fields.map (fun field =>
    if field.id = id then
      { field with
        inputValue := value,
        inputError := if formSubmitted && decide (value = "") then "This field is required" else "" }
    else field)

/-- The list stored by `handleSelectChange(id, value)`. -/
def handleSelectChange (fields : List Field) (formSubmitted : Bool) (id : Int) (value : String) :
    List Field :=
  fields.map (fun field =>
    if field.id = id then
      { field with
        selectValue := value,
        selectError := if formSubmitted && decide (value = "") then "Please select an option" else "" }
    else field)

/-- The body of the callback passed to `fields.map` in `validateForm`, with the
mutable flag `isValid` threaded through: it returns the new field and the new flag. -/
def validateField (isValid : Bool) (field : Field) : Field × Bool :=
  let newField := field
  let (newField, isValid) :=
    if newField.inputValue = "" then
      ({ newField with inputError := "This field is required" }, false)
    else (newField, isValid)
  let (newField, isValid) :=
    if newField.selectValue = "" then
      ({ newField with selectError := "Please select an option" }, false)
    else (newField, isValid)
  (newField, isValid)

/-- The loop of `fields.map(...)` in `validateForm`: the fields are visited left to
right, the results are collected in order and `isValid` is carried along. -/
def validateLoop : List Field → Bool → List Field × Bool
  | [], isValid => ([], isValid)
  | field :: rest, isValid =>
    let (newField, isValid) := validateField isValid field
    let (updated, isValid) := validateLoop rest isValid
    (newField :: updated, isValid)

/-- The function `validateForm`: the first component is the list passed to
`setFields`, the second the returned `isValid`. -/
def validateForm (fields : List Field) : List Field × Bool :=
  validateLoop fields true

/-- The handler `handleSubmit`: the state after the handler and whether
`alert('Form submitted successfully!')` was called. -/
def handleSubmit (s : State) : State × Bool :=
  let r := validateForm s.fields
  ({ fields := r.1, formSubmitted := true }, r.2)

/-- The user events the component reacts to. -/
inductive Event where
  | addField
  | removeField (id : Int)
  | handleInputChange (id : Int) (value : String)
  | handleSelectChange (id : Int) (value : String)
  | handleSubmit
  deriving DecidableEq

/-- The state after one event. -/
def step (s : State) : Event → State
  | Event.addField => { s with fields := addField s.fields }
  | Event.removeField id => { s with fields := removeField s.fields id }
  | Event.handleInputChange id value =>
    { s with fields := handleInputChange s.fields s.formSubmitted id value }
  | Event.handleSelectChange id value =>
    { s with fields := handleSelectChange s.fields s.formSubmitted id value }
  | Event.handleSubmit => (handleSubmit s).1

/-- The state after a finite sequence of events, first event first. -/
def run (s : State) (evs : List Event) : State :=
  evs.foldl step s

/-- An event other than a submit. -/
def Event.isEdit : Event → Bool
  | Event.handleSubmit => false
  | _ => true

/-- The ids of a list of fields, in order. -/
def ids (fields : List Field) : List Int :=
  fields.map (fun f => f.id)

/-- The state after one event with the sum in `addField` taken in binary64; the
other handlers do no arithmetic. -/
def stepNumber (s : State) : Event → State
  | Event.addField => { s with fields := addFieldNumber s.fields }
  | e => step s e

/-- The state after a finite sequence of events with the sum in `addField` taken
in binary64. -/
def runNumber (s : State) (evs : List Event) : State :=
  evs.foldl stepNumber s

/-- The event removes a group that holds the largest id of the list: it is a
`removeField(id)` that passes the guard, `id` is in the list and no id is larger. -/
def removesMax (s : State) : Event → Bool
  | Event.removeField id =>
    decide (1 < s.fields.length) && decide (id ∈ ids s.fields) &&
      (ids s.fields).all (fun i => decide (i ≤ id))
  | _ => false

/-- No event of the sequence, run from `s`, removes a group that holds the largest
id of the list at that moment. -/
def keepsMax : State → List Event → Bool
  | _, [] => true
  | s, e :: evs => !removesMax s e && keepsMax (step s e) evs

/-- A one-group list whose id is 2^53. -/
def largeGroup : List Field :=
  [{ id := 9007199254740992, inputValue := "", selectValue := "", inputError := "",
     selectError := "" }]

/-- The field stored by `validateForm` for one field. -/
def validated (f : Field) : Field :=
  (validateField true f).1

/-- The flag contribution of one field: both values are non-empty. -/
def filled (f : Field) : Bool :=
  decide (f.inputValue ≠ "") && decide (f.selectValue ≠ "")

/-- The well-formedness kept by every handler: at least one field, ids pairwise distinct. -/
def WF (s : State) : Prop :=
  s.fields ≠ [] ∧ (ids s.fields).Nodup

/-- The errors of a field agree with its values: a non-empty value carries no error. -/
def ErrOk (f : Field) : Prop :=
  (f.inputValue ≠ "" → f.inputError = "") ∧ (f.selectValue ≠ "" → f.selectError = "")

instance instDecidableErrOk (f : Field) : Decidable (ErrOk f) := by
  unfold ErrOk
  infer_instance

/-- The relation between a field and the field `validateForm` stores for it. -/
def ValidatedFrom (f g : Field) : Prop :=
  g.id = f.id ∧ g.inputValue = f.inputValue ∧ g.selectValue = f.selectValue ∧
    g.inputError = (if f.inputValue = "" then "This field is required" else f.inputError) ∧
    g.selectError = (if f.selectValue = "" then "Please select an option" else f.selectError)

/-- A field with both values filled that still carries an input error. -/
def staleField : Field :=
  { id := 1, inputValue := "abc", selectValue := "option1",
    inputError := "This field is required", selectError := "" }

/-- The relation between a field and the field `handleInputChange(id, value)` stores
for it when the submitted flag is `b`. -/
def InputChanged (b : Bool) (id : Int) (value : String) (f g : Field) : Prop :=
  (f.id = id →
    g.id = f.id ∧ g.inputValue = value ∧
      g.inputError = (if b = true ∧ value = "" then "This field is required" else "") ∧
      g.selectValue = f.selectValue ∧ g.selectError = f.selectError) ∧
  (f.id ≠ id → g = f)

/-- The relation between a field and the field `handleSelectChange(id, value)` stores
for it when the submitted flag is `b`. -/
def SelectChanged (b : Bool) (id : Int) (value : String) (f g : Field) : Prop :=
  (f.id = id →
    g.id = f.id ∧ g.selectValue = value ∧
      g.selectError = (if b = true ∧ value = "" then "Please select an option" else "") ∧
      g.inputValue = f.inputValue ∧ g.inputError = f.inputError) ∧
  (f.id ≠ id → g = f)

/-- No submit has happened and no field carries an error. -/
def NoErr (s : State) : Prop :=
  s.formSubmitted = false ∧ ∀ f ∈ s.fields, f.inputError = "" ∧ f.selectError = ""

/-- A two-group list with ids out of order, the second group filled. -/
def twoGroups : List Field :=
  [{ id := 5, inputValue := "", selectValue := "option1", inputError := "", selectError := "" },
   { id := 2, inputValue := "abc", selectValue := "option3", inputError := "", selectError := "" }]

/-- The list of the initial group followed by two added groups: ids 1, 2, 3. -/
def threeGroups : List Field :=
  (run initial [Event.addField, Event.addField]).fields

/-! ## Auxiliary lemmas -/

theorem foldl_max_ge (xs : List Int) (a : Int) : a ≤ xs.foldl max a := by
  induction xs generalizing a with
  | nil => simp
  | cons x xs ih =>
    simp only [List.foldl_cons]
    exact le_trans (le_max_left a x) (ih (max a x))

theorem foldl_max_ge_mem (xs : List Int) (a y : Int) (hy : y ∈ xs) : y ≤ xs.foldl max a := by
  induction xs generalizing a with
  | nil => simp at hy
  | cons x xs ih =>
    simp only [List.foldl_cons]
    rcases List.mem_cons.mp hy with h | h
    · subst h
      exact le_trans (le_max_right a y) (foldl_max_ge xs (max a y))
    · exact ih (max a x) h

theorem foldl_max_mem (xs : List Int) (a : Int) : xs.foldl max a = a ∨ xs.foldl max a ∈ xs := by
  induction xs generalizing a with
  | nil => simp
  | cons x xs ih =>
    simp only [List.foldl_cons]
    rcases ih (max a x) with h | h
    · rcases max_choice a x with h2 | h2
      · left; rw [h, h2]
      · right; rw [h, h2]; exact List.mem_cons_self _ _
    · right; exact List.mem_cons_of_mem _ h

theorem mathMax_ge (xs : List Int) (y : Int) (hy : y ∈ xs) : y ≤ mathMax xs := by
  cases xs with
  | nil => simp at hy
  | cons x xs =>
    simp only [mathMax]
    rcases List.mem_cons.mp hy with h | h
    · subst h; exact foldl_max_ge xs y
    · exact foldl_max_ge_mem xs x y h

theorem mathMax_mem (xs : List Int) (h : xs ≠ []) : mathMax xs ∈ xs := by
  cases xs with
  | nil => exact absurd rfl h
  | cons x xs =>
    simp only [mathMax]
    rcases foldl_max_mem xs x with h2 | h2
    · rw [h2]; exact List.mem_cons_self _ _
    · exact List.mem_cons_of_mem _ h2

theorem newId_eq_of_ne_nil (fields : List Field) (h : fields ≠ []) :
    newId fields = mathMax (ids fields) + 1 := by
  have hl : fields.length > 0 := List.length_pos.mpr h
  simp [newId, ids, hl]

theorem newId_nil : newId [] = 1 := by
  simp [newId]

theorem newId_gt (fields : List Field) (f : Field) (hf : f ∈ fields) : f.id < newId fields := by
  have hne : fields ≠ [] := List.ne_nil_of_mem hf
  rw [newId_eq_of_ne_nil fields hne]
  have : f.id ≤ mathMax (ids fields) := mathMax_ge _ _ (List.mem_map_of_mem _ hf)
  omega

theorem newId_not_mem (fields : List Field) : newId fields ∉ ids fields := by
  intro h
  obtain ⟨f, hf, hid⟩ := List.mem_map.mp h
  have := newId_gt fields f hf
  omega

theorem ids_addField (fields : List Field) : ids (addField fields) = ids fields ++ [newId fields] := by
  simp [ids, addField]

theorem ids_handleInputChange (fields : List Field) (b : Bool) (id : Int) (v : String) :
    ids (handleInputChange fields b id v) = ids fields := by
  simp only [ids, handleInputChange, List.map_map]
  apply List.map_congr_left
  intro f _
  simp only [Function.comp]
  split <;> rfl

theorem ids_handleSelectChange (fields : List Field) (b : Bool) (id : Int) (v : String) :
    ids (handleSelectChange fields b id v) = ids fields := by
  simp only [ids, handleSelectChange, List.map_map]
  apply List.map_congr_left
  intro f _
  simp only [Function.comp]
  split <;> rfl

theorem validateField_fst (b : Bool) (f : Field) : (validateField b f).1 = validated f := by
  simp only [validated, validateField]
  split_ifs <;> rfl

theorem validateField_snd (b : Bool) (f : Field) : (validateField b f).2 = (b && filled f) := by
  simp only [filled, validateField]
  by_cases h1 : f.inputValue = "" <;> by_cases h2 : f.selectValue = "" <;> simp [h1, h2]

theorem validateLoop_fst (fields : List Field) (b : Bool) :
    (validateLoop fields b).1 = fields.map validated := by
  induction fields generalizing b with
  | nil => rfl
  | cons f fs ih =>
    simp only [validateLoop, List.map_cons]
    rw [ih, validateField_fst]

theorem validateLoop_snd (fields : List Field) (b : Bool) :
    (validateLoop fields b).2 = (b && fields.all filled) := by
  induction fields generalizing b with
  | nil => simp [validateLoop]
  | cons f fs ih =>
    simp only [validateLoop, List.all_cons]
    rw [ih, validateField_snd, Bool.and_assoc]

theorem validated_id (f : Field) : (validated f).id = f.id := by
  simp only [validated, validateField]
  split_ifs <;> rfl

theorem validated_inputValue (f : Field) : (validated f).inputValue = f.inputValue := by
  simp only [validated, validateField]
  split_ifs <;> rfl

theorem validated_selectValue (f : Field) : (validated f).selectValue = f.selectValue := by
  simp only [validated, validateField]
  split_ifs <;> rfl

theorem validated_inputError (f : Field) :
    (validated f).inputError = if f.inputValue = "" then "This field is required" else f.inputError := by
  simp only [validated, validateField]
  split_ifs <;> rfl

theorem validated_selectError (f : Field) :
    (validated f).selectError =
      if f.selectValue = "" then "Please select an option" else f.selectError := by
  simp only [validated, validateField]
  split_ifs <;> rfl

theorem ids_validateForm (fields : List Field) : ids (validateForm fields).1 = ids fields := by
  simp only [ids, validateForm, validateLoop_fst, List.map_map]
  apply List.map_congr_left
  intro f _
  exact validated_id f

theorem run_nil (s : State) : run s [] = s := rfl

theorem run_cons (s : State) (e : Event) (evs : List Event) :
    run s (e :: evs) = run (step s e) evs := rfl

theorem run_append (s : State) (evs1 evs2 : List Event) :
    run s (evs1 ++ evs2) = run (run s evs1) evs2 := by
  simp [run, List.foldl_append]

/-- A property that holds initially and is kept by every step holds after every run. -/
theorem run_invariant (P : State → Prop) (hstep : ∀ s e, P s → P (step s e))
    (s : State) (hs : P s) (evs : List Event) : P (run s evs) := by
  induction evs generalizing s with
  | nil => exact hs
  | cons e evs ih => exact ih (step s e) (hstep s e hs)

theorem filter_ne_eq_self (fields : List Field) (id : Int) (h : id ∉ ids fields) :
    fields.filter (fun field => decide (field.id ≠ id)) = fields := by
  apply List.filter_eq_self.mpr
  intro f hf
  have : f.id ≠ id := by
    intro he
    exact h (he ▸ List.mem_map_of_mem (fun f => f.id) hf)
  simpa using this

theorem length_le_filter_ne (fields : List Field) (id : Int) (hnd : (ids fields).Nodup) :
    fields.length ≤ (fields.filter (fun field => decide (field.id ≠ id))).length + 1 := by
  induction fields with
  | nil => simp
  | cons f fs ih =>
    have hnd2 : f.id ∉ ids fs ∧ (ids fs).Nodup := by simpa [ids] using hnd
    by_cases hid : f.id = id
    · have hs : fs.filter (fun field => decide (field.id ≠ id)) = fs :=
        filter_ne_eq_self fs id (hid ▸ hnd2.1)
      have hc : decide (f.id ≠ id) = false := by simp [hid]
      rw [List.filter_cons_of_neg (by simp [hc]), hs]
      simp
    · have := ih hnd2.2
      rw [List.filter_cons_of_pos (by simp [hid])]
      simp only [List.length_cons]
      omega

theorem length_filter_ne_of_mem (fields : List Field) (id : Int) (hnd : (ids fields).Nodup)
    (hmem : id ∈ ids fields) :
    (fields.filter (fun field => decide (field.id ≠ id))).length + 1 = fields.length := by
  induction fields with
  | nil => simp [ids] at hmem
  | cons f fs ih =>
    have hnd2 : f.id ∉ ids fs ∧ (ids fs).Nodup := by simpa [ids] using hnd
    by_cases hid : f.id = id
    · have hs : fs.filter (fun field => decide (field.id ≠ id)) = fs :=
        filter_ne_eq_self fs id (hid ▸ hnd2.1)
      have hc : decide (f.id ≠ id) = false := by simp [hid]
      rw [List.filter_cons_of_neg (by simp [hc]), hs]
      simp
    · have hm : id ∈ ids fs := by
        have : id = f.id ∨ id ∈ ids fs := by simpa [ids] using hmem
        rcases this with h | h
        · exact absurd h.symm hid
        · exact h
      have := ih hnd2.2 hm
      rw [List.filter_cons_of_pos (by simp [hid])]
      simp only [List.length_cons]
      omega

theorem ids_removeField_sublist (fields : List Field) (id : Int) :
    (ids (removeField fields id)).Sublist (ids fields) := by
  unfold removeField
  split
  · exact List.Sublist.map _ (List.filter_sublist _)
  · exact List.Sublist.refl _

theorem removeField_ne_nil (fields : List Field) (id : Int) (hne : fields ≠ [])
    (hnd : (ids fields).Nodup) : removeField fields id ≠ [] := by
  unfold removeField
  split
  · rename_i hl
    have := length_le_filter_ne fields id hnd
    intro h
    rw [h] at this
    simp at this
    omega
  · exact hne

theorem WF_initial : WF initial := by
  constructor
  · simp [initial]
  · simp [initial, ids]

theorem WF_step (s : State) (e : Event) (h : WF s) : WF (step s e) := by
  obtain ⟨hne, hnd⟩ := h
  cases e with
  | addField =>
    refine ⟨by simp [step, addField], ?_⟩
    simp only [step, ids_addField]
    exact List.Nodup.append hnd (List.nodup_singleton _)
      (by
        intro a ha hb
        have : a = newId s.fields := by simpa using hb
        exact newId_not_mem s.fields (this ▸ ha))
  | removeField id =>
    exact ⟨removeField_ne_nil s.fields id hne hnd,
      List.Nodup.sublist (ids_removeField_sublist s.fields id) hnd⟩
  | handleInputChange id v =>
    refine ⟨?_, ?_⟩
    · simpa [step, handleInputChange] using hne
    · simpa only [step, ids_handleInputChange] using hnd
  | handleSelectChange id v =>
    refine ⟨?_, ?_⟩
    · simpa [step, handleSelectChange] using hne
    · simpa only [step, ids_handleSelectChange] using hnd
  | handleSubmit =>
    refine ⟨?_, ?_⟩
    · simpa [step, handleSubmit, validateForm, validateLoop_fst] using hne
    · simpa only [step, handleSubmit, ids_validateForm] using hnd

theorem WF_run (evs : List Event) : WF (run initial evs) :=
  run_invariant WF WF_step initial WF_initial evs

/-! ## The claims -/

/-- C1: after any finite sequence of the five events from the initial state the
list holds at least one group, and `removeField(id)` on a one-group list returns
that list unchanged, for every id. -/
theorem C1_at_least_one_group (evs : List Event) :
    1 ≤ (run initial evs).fields.length ∧
      ∀ (fields : List Field) (id : Int), fields.length = 1 → removeField fields id = fields := by
  refine ⟨List.length_pos.mpr (WF_run evs).1, ?_⟩
  intro fields id h
  simp [removeField, h]

/-- C2: after any finite sequence of the five events from the initial state the
ids of the groups in the list are pairwise distinct. -/
theorem C2_ids_pairwise_distinct (evs : List Event) :
    List.Pairwise (fun a b => a ≠ b) (ids (run initial evs).fields) :=
  (WF_run evs).2

theorem validateForm_snd (fields : List Field) :
    (validateForm fields).2 = true ↔ ∀ f ∈ fields, f.inputValue ≠ "" ∧ f.selectValue ≠ "" := by
  simp [validateForm, validateLoop_snd, filled]

theorem ErrOk_validated (f : Field) (h : ErrOk f) : ErrOk (validated f) := by
  obtain ⟨h1, h2⟩ := h
  refine ⟨?_, ?_⟩
  · rw [validated_inputValue, validated_inputError]
    intro hv
    rw [if_neg hv]
    exact h1 hv
  · rw [validated_selectValue, validated_selectError]
    intro hv
    rw [if_neg hv]
    exact h2 hv

theorem ErrOk_step (s : State) (e : Event) (h : ∀ f ∈ s.fields, ErrOk f) :
    ∀ f ∈ (step s e).fields, ErrOk f := by
  cases e with
  | addField =>
    intro f hf
    simp only [step, addField, List.mem_append, List.mem_singleton] at hf
    rcases hf with hf | hf
    · exact h f hf
    · subst hf
      exact ⟨fun _ => rfl, fun _ => rfl⟩
  | removeField id =>
    intro f hf
    simp only [step, removeField] at hf
    split at hf
    · exact h f (List.mem_filter.mp hf).1
    · exact h f hf
  | handleInputChange id v =>
    intro f hf
    simp only [step, handleInputChange, List.mem_map] at hf
    obtain ⟨f0, hf0, rfl⟩ := hf
    split
    · refine ⟨?_, (h f0 hf0).2⟩
      intro hv
      have hv2 : v ≠ "" := hv
      simp [hv2]
    · exact h f0 hf0
  | handleSelectChange id v =>
    intro f hf
    simp only [step, handleSelectChange, List.mem_map] at hf
    obtain ⟨f0, hf0, rfl⟩ := hf
    split
    · refine ⟨(h f0 hf0).1, ?_⟩
      intro hv
      have hv2 : v ≠ "" := hv
      simp [hv2]
    · exact h f0 hf0
  | handleSubmit =>
    intro f hf
    simp only [step, handleSubmit, validateForm, validateLoop_fst, List.mem_map] at hf
    obtain ⟨f0, hf0, rfl⟩ := hf
    exact ErrOk_validated f0 (h f0 hf0)

theorem ErrOk_run (evs : List Event) : ∀ f ∈ (run initial evs).fields, ErrOk f :=
  run_invariant (fun s => ∀ f ∈ s.fields, ErrOk f) ErrOk_step initial
    (by
      intro f hf
      simp only [initial, List.mem_singleton] at hf
      subst hf
      exact ⟨fun _ => rfl, fun _ => rfl⟩) evs

theorem validated_errors_of_ErrOk (f : Field) (hok : ErrOk f) :
    (validated f).inputError =
        (if (validated f).inputValue = "" then "This field is required" else "") ∧
      (validated f).selectError =
        (if (validated f).selectValue = "" then "Please select an option" else "") := by
  rw [validated_inputError, validated_selectError, validated_inputValue, validated_selectValue]
  refine ⟨?_, ?_⟩
  · by_cases hv : f.inputValue = ""
    · simp [hv]
    · simp [hv, hok.1 hv]
  · by_cases hv : f.selectValue = ""
    · simp [hv]
    · simp [hv, hok.2 hv]

/-- C4: `validateForm` returns true exactly when every group of the list has a
non-empty `inputValue` and a non-empty `selectValue`; it returns true on the empty
list, and `handleSubmit` calls the acknowledgment exactly in that case. -/
theorem C4_validateForm_true_iff_all_filled (fields : List Field) (s : State) :
    ((validateForm fields).2 = true ↔ ∀ f ∈ fields, f.inputValue ≠ "" ∧ f.selectValue ≠ "") ∧
      (validateForm []).2 = true ∧
      ((handleSubmit s).2 = true ↔ ∀ f ∈ s.fields, f.inputValue ≠ "" ∧ f.selectValue ≠ "") :=
  ⟨validateForm_snd fields, rfl, validateForm_snd s.fields⟩

/-- C5 as stated fails: on a list whose only group has both values filled but
still holds an input error, `validateForm` stores the group as it is, so its
`inputError` is not cleared. -/
theorem C5_stale_error_not_cleared :
    (validateForm [staleField]).1 = [staleField] ∧ staleField.inputValue ≠ "" ∧
      staleField.inputError = "This field is required" := by
  decide

/-- C5 amended: the list stored by `validateForm` has the same length and order,
and each group keeps its id and values; its `inputError` is "This field is required"
if its `inputValue` is empty and is left as it was otherwise, and its `selectError`
is "Please select an option" if its `selectValue` is empty and is left as it was
otherwise. So on a list where no group with a non-empty value holds an error for
it, every stored error is the message when the value is empty and empty otherwise. -/
theorem C5_validateForm_sets_errors (fields : List Field) :
    List.Forall₂ ValidatedFrom fields (validateForm fields).1 ∧
      ((∀ f ∈ fields, ErrOk f) → ∀ g ∈ (validateForm fields).1,
        g.inputError = (if g.inputValue = "" then "This field is required" else "") ∧
        g.selectError = (if g.selectValue = "" then "Please select an option" else "")) := by
  simp only [validateForm, validateLoop_fst]
  refine ⟨?_, ?_⟩
  · induction fields with
    | nil => exact List.Forall₂.nil
    | cons f fs ih =>
      exact List.Forall₂.cons
        ⟨validated_id f, validated_inputValue f, validated_selectValue f,
          validated_inputError f, validated_selectError f⟩ ih
  · intro hok g hg
    obtain ⟨f, hf, rfl⟩ := List.mem_map.mp hg
    exact validated_errors_of_ErrOk f (hok f hf)

/-- C5 amended, at a two-group list: one group with only the input filled and a
leftover select error, one empty group without errors. -/
theorem C5_validateForm_sets_errors_witness :
    (validateForm [
        { id := 1, inputValue := "abc", selectValue := "", inputError := "",
          selectError := "Please select an option" },
        { id := 2, inputValue := "", selectValue := "", inputError := "", selectError := "" }]).1
      = [
        { id := 1, inputValue := "abc", selectValue := "", inputError := "",
          selectError := "Please select an option" },
        { id := 2, inputValue := "", selectValue := "", inputError := "This field is required",
          selectError := "Please select an option" }] ∧
    ∀ g ∈ (validateForm [
        { id := 1, inputValue := "abc", selectValue := "", inputError := "",
          selectError := "Please select an option" },
        { id := 2, inputValue := "", selectValue := "", inputError := "", selectError := "" }]).1,
      g.inputError = (if g.inputValue = "" then "This field is required" else "") ∧
      g.selectError = (if g.selectValue = "" then "Please select an option" else "") :=
  ⟨by decide, (C5_validateForm_sets_errors _).2 (by decide)⟩

/-- C7: for every state reached from the initial state by the five events, the
state right after `handleSubmit` has `formSubmitted = true` and every group has
`inputError` "This field is required" exactly when its `inputValue` is empty
(empty otherwise) and `selectError` "Please select an option" exactly when its
`selectValue` is empty (empty otherwise). The scenario: one empty group, submit
gives both errors and no acknowledgment; input "abc", submit gives only the select
error; select "option2", submit gives no errors and the acknowledgment. -/
theorem C7_state_after_submit (evs : List Event) :
    ((handleSubmit (run initial evs)).1.formSubmitted = true ∧
      ∀ g ∈ (handleSubmit (run initial evs)).1.fields,
        g.inputError = (if g.inputValue = "" then "This field is required" else "") ∧
        g.selectError = (if g.selectValue = "" then "Please select an option" else "")) ∧
    handleSubmit initial =
      ({ fields := [{ id := 1, inputValue := "", selectValue := "",
                      inputError := "This field is required",
                      selectError := "Please select an option" }],
         formSubmitted := true }, false) ∧
    handleSubmit (run initial [Event.handleSubmit, Event.handleInputChange 1 "abc"]) =
      ({ fields := [{ id := 1, inputValue := "abc", selectValue := "",
                      inputError := "", selectError := "Please select an option" }],
         formSubmitted := true }, false) ∧
    handleSubmit (run initial [Event.handleSubmit, Event.handleInputChange 1 "abc",
        Event.handleSubmit, Event.handleSelectChange 1 "option2"]) =
      ({ fields := [{ id := 1, inputValue := "abc", selectValue := "option2",
                      inputError := "", selectError := "" }],
         formSubmitted := true }, true) := by
  refine ⟨⟨rfl, ?_⟩, by decide, by decide, by decide⟩
  intro g hg
  simp only [handleSubmit, validateForm, validateLoop_fst, List.mem_map] at hg
  obtain ⟨f, hf, rfl⟩ := hg
  exact validated_errors_of_ErrOk f (ErrOk_run evs f hf)

theorem NoErr_step (s : State) (e : Event) (he : e.isEdit = true) (h : NoErr s) :
    NoErr (step s e) := by
  obtain ⟨hsub, herr⟩ := h
  cases e with
  | addField =>
    refine ⟨hsub, ?_⟩
    intro f hf
    simp only [step, addField, List.mem_append, List.mem_singleton] at hf
    rcases hf with hf | hf
    · exact herr f hf
    · subst hf
      exact ⟨rfl, rfl⟩
  | removeField id =>
    refine ⟨hsub, ?_⟩
    intro f hf
    simp only [step, removeField] at hf
    split at hf
    · exact herr f (List.mem_filter.mp hf).1
    · exact herr f hf
  | handleInputChange id v =>
    refine ⟨hsub, ?_⟩
    intro f hf
    simp only [step, handleInputChange, List.mem_map, hsub] at hf
    obtain ⟨f0, hf0, rfl⟩ := hf
    split
    · exact ⟨by simp, (herr f0 hf0).2⟩
    · exact herr f0 hf0
  | handleSelectChange id v =>
    refine ⟨hsub, ?_⟩
    intro f hf
    simp only [step, handleSelectChange, List.mem_map, hsub] at hf
    obtain ⟨f0, hf0, rfl⟩ := hf
    split
    · exact ⟨(herr f0 hf0).1, by simp⟩
    · exact herr f0 hf0
  | handleSubmit => simp [Event.isEdit] at he

theorem NoErr_run (s : State) (evs : List Event) (he : evs.all Event.isEdit = true)
    (h : NoErr s) : NoErr (run s evs) := by
  induction evs generalizing s with
  | nil => exact h
  | cons e evs ih =>
    simp only [List.all_cons, Bool.and_eq_true] at he
    exact ih (step s e) he.2 (NoErr_step s e he.1 h)

theorem newId_gt_id (fields : List Field) (i : Int) (hi : i ∈ ids fields) : i < newId fields := by
  obtain ⟨f, hf, rfl⟩ := List.mem_map.mp hi
  exact newId_gt fields f hf

theorem map_eq_self_of_fixed (fn : Field → Field) (l : List Field) (h : ∀ x ∈ l, fn x = x) :
    l.map fn = l := by
  induction l with
  | nil => rfl
  | cons x xs ih =>
    rw [List.map_cons, h x (List.mem_cons_self _ _),
      ih (fun y hy => h y (List.mem_cons_of_mem _ hy))]

theorem handleInputChange_of_not_mem (fields : List Field) (b : Bool) (id : Int) (v : String)
    (h : id ∉ ids fields) : handleInputChange fields b id v = fields := by
  apply map_eq_self_of_fixed
  intro f hf
  have hne : f.id ≠ id := fun he => h (he ▸ List.mem_map_of_mem (fun f => f.id) hf)
  simp [hne]

theorem handleSelectChange_of_not_mem (fields : List Field) (b : Bool) (id : Int) (v : String)
    (h : id ∉ ids fields) : handleSelectChange fields b id v = fields := by
  apply map_eq_self_of_fixed
  intro f hf
  have hne : f.id ≠ id := fun he => h (he ▸ List.mem_map_of_mem (fun f => f.id) hf)
  simp [hne]

/-- C6: after any finite sequence of `addField`, `removeField`, `handleInputChange`
and `handleSelectChange` from the initial state (no submit), `formSubmitted` is
false and every group has empty `inputError` and `selectError`. -/
theorem C6_no_errors_before_submit (evs : List Event) (h : evs.all Event.isEdit = true) :
    (run initial evs).formSubmitted = false ∧
      ∀ f ∈ (run initial evs).fields, f.inputError = "" ∧ f.selectError = "" :=
  NoErr_run initial evs h
    ⟨rfl, by
      intro f hf
      simp only [initial, List.mem_singleton] at hf
      subst hf
      exact ⟨rfl, rfl⟩⟩

/-- C6 at a concrete run that enters empty and non-empty values. -/
theorem C6_no_errors_before_submit_witness :
    [Event.handleInputChange 1 "", Event.addField, Event.handleSelectChange 2 "",
        Event.handleInputChange 2 "x", Event.removeField 1].all Event.isEdit = true ∧
      (run initial [Event.handleInputChange 1 "", Event.addField, Event.handleSelectChange 2 "",
        Event.handleInputChange 2 "x", Event.removeField 1]).formSubmitted = false ∧
      ∀ f ∈ (run initial [Event.handleInputChange 1 "", Event.addField,
          Event.handleSelectChange 2 "", Event.handleInputChange 2 "x",
          Event.removeField 1]).fields, f.inputError = "" ∧ f.selectError = "" :=
  ⟨by decide, C6_no_errors_before_submit _ (by decide)⟩

/-- C8: `handleInputChange(id, v)` keeps the length and order of the list and the
submitted flag; a group whose id is `id` gets `inputValue = v` and `inputError`
"This field is required" if submitted and `v` is empty, empty otherwise, and keeps
its id, `selectValue` and `selectError`; every other group is unchanged; an id
matching no group changes nothing. `handleSelectChange(id, v)` does the same for
`selectValue` and `selectError` with "Please select an option". -/
theorem C8_change_handlers_frame (s : State) (id : Int) (v : String) :
    (List.Forall₂ (InputChanged s.formSubmitted id v) s.fields
        (step s (Event.handleInputChange id v)).fields ∧
      (step s (Event.handleInputChange id v)).formSubmitted = s.formSubmitted ∧
      (id ∉ ids s.fields → step s (Event.handleInputChange id v) = s)) ∧
    (List.Forall₂ (SelectChanged s.formSubmitted id v) s.fields
        (step s (Event.handleSelectChange id v)).fields ∧
      (step s (Event.handleSelectChange id v)).formSubmitted = s.formSubmitted ∧
      (id ∉ ids s.fields → step s (Event.handleSelectChange id v) = s)) := by
  obtain ⟨fields, b⟩ := s
  refine ⟨⟨?_, rfl, ?_⟩, ⟨?_, rfl, ?_⟩⟩
  · simp only [step, handleInputChange]
    induction fields with
    | nil => exact List.Forall₂.nil
    | cons f fs ih =>
      refine List.Forall₂.cons ⟨?_, ?_⟩ ih
      · intro hid
        simp [hid]
      · intro hid
        simp [hid]
  · intro hid
    simp only [step]
    rw [handleInputChange_of_not_mem fields b id v hid]
  · simp only [step, handleSelectChange]
    induction fields with
    | nil => exact List.Forall₂.nil
    | cons f fs ih =>
      refine List.Forall₂.cons ⟨?_, ?_⟩ ih
      · intro hid
        simp [hid]
      · intro hid
        simp [hid]
  · intro hid
    simp only [step]
    rw [handleSelectChange_of_not_mem fields b id v hid]

/-- C9: on a list with more than one group `removeField(id)` returns exactly the
groups whose id differs from `id`, unchanged and in their original relative order;
with pairwise distinct ids and `id` present the length drops by exactly one, and
with `id` absent the list is unchanged. -/
theorem C9_removeField_keeps_other_ids (fields : List Field) (id : Int)
    (h : 1 < fields.length) :
    removeField fields id = fields.filter (fun f => decide (f.id ≠ id)) ∧
      (removeField fields id).Sublist fields ∧
      (∀ f, f ∈ removeField fields id ↔ f ∈ fields ∧ f.id ≠ id) ∧
      ((ids fields).Nodup → id ∈ ids fields →
        (removeField fields id).length + 1 = fields.length) ∧
      (id ∉ ids fields → removeField fields id = fields) := by
  have heq : removeField fields id = fields.filter (fun f => decide (f.id ≠ id)) := by
    simp [removeField, h]
  refine ⟨heq, ?_, ?_, ?_, ?_⟩
  · rw [heq]
    exact List.filter_sublist _
  · intro f
    rw [heq, List.mem_filter]
    simp
  · intro hnd hmem
    rw [heq]
    exact length_filter_ne_of_mem fields id hnd hmem
  · intro hmem
    rw [heq]
    exact filter_ne_eq_self fields id hmem

/-- C9 on the scenario: the initial group and two added groups have ids 1, 2, 3;
`removeField(2)` leaves ids 1, 3 and one group fewer; a further `addField` gives
the new id 4. -/
theorem C9_scenario_remove_middle :
    ids threeGroups = [1, 2, 3] ∧ 1 < threeGroups.length ∧
      ids (removeField threeGroups 2) = [1, 3] ∧
      ids (addField (removeField threeGroups 2)) = [1, 3, 4] ∧
      (removeField threeGroups 2).length + 1 = threeGroups.length ∧
      removeField threeGroups 7 = threeGroups :=
  ⟨by decide, by decide, by decide, by decide,
    (C9_removeField_keeps_other_ids threeGroups 2 (by decide)).2.2.2.1 (by decide) (by decide),
    (C9_removeField_keeps_other_ids threeGroups 7 (by decide)).2.2.2.2 (by decide)⟩

/-- C10 as stated fails: after two `addField` calls the ids are 1, 2, 3; once the
group with id 3 is removed, the next `addField` gives the new group the id 3
again, which is not greater than the id of the removed group. -/
theorem C10_removed_id_assigned_again :
    (3 : Int) ∈ ids (run initial [Event.addField, Event.addField]).fields ∧
      ids (run initial [Event.addField, Event.addField, Event.removeField 3]).fields = [1, 2] ∧
      newId (run initial [Event.addField, Event.addField, Event.removeField 3]).fields = 3 ∧
      ids (run initial [Event.addField, Event.addField, Event.removeField 3,
        Event.addField]).fields = [1, 2, 3] := by
  decide

/-- C1 at the initial one-group list: removing any id, present or absent, returns it. -/
theorem C1_at_least_one_group_witness :
    1 ≤ (run initial [Event.addField, Event.removeField 1, Event.removeField 2]).fields.length ∧
      removeField initial.fields 1 = initial.fields ∧
      removeField initial.fields 5 = initial.fields :=
  ⟨(C1_at_least_one_group _).1, (C1_at_least_one_group []).2 _ 1 (by decide),
    (C1_at_least_one_group []).2 _ 5 (by decide)⟩

/-- C4 at a two-group list with one empty input: `validateForm` returns false, and
it returns true once that input is filled. -/
theorem C4_validateForm_true_iff_all_filled_witness :
    (validateForm twoGroups).2 = false ∧
      (validateForm (handleInputChange twoGroups false 5 "x")).2 = true ∧
      ((validateForm twoGroups).2 = true ↔
        ∀ f ∈ twoGroups, f.inputValue ≠ "" ∧ f.selectValue ≠ "") :=
  ⟨by decide, by decide, (C4_validateForm_true_iff_all_filled twoGroups initial).1⟩

/-- C8 after a submit of the two-group list: emptying the input of group 2 sets
that group's input error only, and an id matching no group changes nothing. -/
theorem C8_change_handlers_frame_witness :
    (step { fields := twoGroups, formSubmitted := true } (Event.handleInputChange 2 "")).fields =
      [{ id := 5, inputValue := "", selectValue := "option1", inputError := "", selectError := "" },
       { id := 2, inputValue := "", selectValue := "option3",
         inputError := "This field is required", selectError := "" }] ∧
    step { fields := twoGroups, formSubmitted := true } (Event.handleInputChange 9 "x") =
      { fields := twoGroups, formSubmitted := true } ∧
    step { fields := twoGroups, formSubmitted := true } (Event.handleSelectChange 9 "") =
      { fields := twoGroups, formSubmitted := true } :=
  ⟨by decide,
    (C8_change_handlers_frame { fields := twoGroups, formSubmitted := true } 9 "x").1.2.2
      (by decide),
    (C8_change_handlers_frame { fields := twoGroups, formSubmitted := true } 9 "").2.2.2
      (by decide)⟩

/-! ## The sum in binary64 -/

theorem excessBits_of_lt (fuel n : Nat) (h : n < 2 ^ 53) : excessBits fuel n = 0 := by
  cases fuel with
  | zero => rfl
  | succ k => simp only [excessBits, if_pos h]

theorem roundNat_of_lt (n : Nat) (h : n < 2 ^ 53) : roundNat n = n := by
  simp only [roundNat, excessBits_of_lt 1024 n h, pow_zero, Nat.mod_one, Nat.div_one,
    mul_zero, mul_one]
  simp

theorem roundNat_of_le (n : Nat) (h : n ≤ 2 ^ 53) : roundNat n = n := by
  rcases Nat.lt_or_ge n (2 ^ 53) with h1 | h1
  · exact roundNat_of_lt n h1
  · have : n = 2 ^ 53 := le_antisymm h h1
    subst this
    decide

theorem roundNumber_of_abs_le (x : Int) (h1 : -2 ^ 53 ≤ x) (h2 : x ≤ 2 ^ 53) :
    roundNumber x = x := by
  have hn : x.natAbs ≤ 2 ^ 53 := by omega
  unfold roundNumber
  rw [roundNat_of_le _ hn]
  split <;> omega

theorem numberAddOne_of_safe (x : Int) (h1 : -2 ^ 53 ≤ x) (h2 : x < 2 ^ 53) :
    numberAddOne x = x + 1 :=
  roundNumber_of_abs_le (x + 1) (by omega) (by omega)

theorem newIdNumber_eq_newId_of_max (fields : List Field)
    (hhi : ∀ f ∈ fields, f.id < 2 ^ 53) (hlo : fields = [] ∨ ∃ f ∈ fields, -2 ^ 53 ≤ f.id) :
    newIdNumber fields = newId fields := by
  unfold newIdNumber newId
  split
  · rename_i hl
    have hne0 : fields ≠ [] := by
      intro he
      rw [he] at hl
      simp at hl
    have hne : fields.map (fun f => f.id) ≠ [] := by
      intro he
      exact hne0 (List.map_eq_nil_iff.mp he)
    obtain ⟨f, hf, hid⟩ := List.mem_map.mp (mathMax_mem _ hne)
    rcases hlo with h0 | ⟨g, hg, hglo⟩
    · exact absurd h0 hne0
    · have hge : g.id ≤ mathMax (fields.map (fun f => f.id)) :=
        mathMax_ge _ _ (List.mem_map_of_mem _ hg)
      have hlt := hhi f hf
      exact numberAddOne_of_safe _ (by omega) (by omega)
  · rfl

theorem newIdNumber_eq_newId (fields : List Field)
    (h : ∀ f ∈ fields, -2 ^ 53 ≤ f.id ∧ f.id < 2 ^ 53) : newIdNumber fields = newId fields := by
  apply newIdNumber_eq_newId_of_max fields (fun f hf => (h f hf).2)
  cases fields with
  | nil => exact Or.inl rfl
  | cons f fs => exact Or.inr ⟨f, List.mem_cons_self _ _, (h f (List.mem_cons_self _ _)).1⟩

theorem addFieldNumber_eq_addField (fields : List Field)
    (h : ∀ f ∈ fields, -2 ^ 53 ≤ f.id ∧ f.id < 2 ^ 53) : addFieldNumber fields = addField fields := by
  simp only [addFieldNumber, addField, newIdNumber_eq_newId fields h]

theorem mem_ids_of_mem (fields : List Field) (f : Field) (hf : f ∈ fields) : f.id ∈ ids fields :=
  List.mem_map_of_mem (fun f => f.id) hf

theorem mem_of_mem_ids (fields : List Field) (i : Int) (hi : i ∈ ids fields) :
    ∃ f ∈ fields, f.id = i :=
  List.mem_map.mp hi

theorem newId_bounds (fields : List Field) (b : Int) (hb : 0 ≤ b)
    (h : ∀ f ∈ fields, 1 ≤ f.id ∧ f.id ≤ b) : 1 ≤ newId fields ∧ newId fields ≤ b + 1 := by
  by_cases hne : fields = []
  · subst hne
    rw [newId_nil]
    omega
  · rw [newId_eq_of_ne_nil fields hne]
    have hne2 : ids fields ≠ [] := by simpa [ids] using hne
    obtain ⟨f, hf, hid⟩ := mem_of_mem_ids fields _ (mathMax_mem (ids fields) hne2)
    have := h f hf
    omega

theorem ids_step_subset (s : State) (e : Event) :
    ∀ i ∈ ids (step s e).fields, i ∈ ids s.fields ∨ i = newId s.fields := by
  intro i hi
  cases e with
  | addField =>
    simp only [step, ids_addField, List.mem_append, List.mem_singleton] at hi
    exact hi
  | removeField id => exact Or.inl ((ids_removeField_sublist s.fields id).subset hi)
  | handleInputChange id v =>
    simp only [step, ids_handleInputChange] at hi
    exact Or.inl hi
  | handleSelectChange id v =>
    simp only [step, ids_handleSelectChange] at hi
    exact Or.inl hi
  | handleSubmit =>
    simp only [step, handleSubmit, ids_validateForm] at hi
    exact Or.inl hi

theorem step_bounds (s : State) (e : Event) (b : Int) (hb : 0 ≤ b)
    (h : ∀ f ∈ s.fields, 1 ≤ f.id ∧ f.id ≤ b) :
    ∀ f ∈ (step s e).fields, 1 ≤ f.id ∧ f.id ≤ b + 1 := by
  intro f hf
  rcases ids_step_subset s e f.id (mem_ids_of_mem _ f hf) with hi | hi
  · obtain ⟨g, hg, hid⟩ := mem_of_mem_ids _ _ hi
    have := h g hg
    omega
  · have := newId_bounds s.fields b hb h
    omega

theorem stepNumber_eq_step (s : State) (e : Event)
    (h : ∀ f ∈ s.fields, -2 ^ 53 ≤ f.id ∧ f.id < 2 ^ 53) : stepNumber s e = step s e := by
  cases e with
  | addField => simp only [stepNumber, step, addFieldNumber_eq_addField s.fields h]
  | removeField id => rfl
  | handleInputChange id v => rfl
  | handleSelectChange id v => rfl
  | handleSubmit => rfl

theorem runNumber_eq_run_of_bounds (s : State) (evs : List Event) (b : Int) (hb : 0 ≤ b)
    (h : ∀ f ∈ s.fields, 1 ≤ f.id ∧ f.id ≤ b) (hlen : b + evs.length ≤ 2 ^ 53) :
    runNumber s evs = run s evs := by
  induction evs generalizing s b with
  | nil => rfl
  | cons e evs ih =>
    simp only [List.length_cons, Nat.cast_add, Nat.cast_one] at hlen
    have hsafe : ∀ f ∈ s.fields, -2 ^ 53 ≤ f.id ∧ f.id < 2 ^ 53 := by
      intro f hf
      have := h f hf
      omega
    simp only [runNumber, run, List.foldl_cons]
    rw [stepNumber_eq_step s e hsafe]
    exact ih (step s e) (b + 1) (by omega) (step_bounds s e b hb h) (by omega)

/-- On every run from the initial state of fewer than 2^53 events the state machine
with the sum in binary64 goes through the same states as the one with the exact sum. -/
theorem runNumber_eq_run (evs : List Event) (h : evs.length < 2 ^ 53) :
    runNumber initial evs = run initial evs := by
  apply runNumber_eq_run_of_bounds initial evs 1 (by omega)
  · intro f hf
    simp only [initial, List.mem_singleton] at hf
    subst hf
    exact ⟨le_refl _, le_refl _⟩
  · have : (evs.length : Int) < 2 ^ 53 := by exact_mod_cast h
    omega

/-- C3 as stated fails: on the one-group list with id 2^53 the sum 2^53 + 1 is
rounded to 2^53, so the appended group gets the id of the existing group. -/
theorem C3_new_id_repeats_at_two_pow_53 :
    ids largeGroup = [2 ^ 53] ∧ ids (addFieldNumber largeGroup) = [2 ^ 53, 2 ^ 53] := by
  decide

/-- C3 amended: for every group list whose largest id m has -2^53 ≤ m < 2^53,
`addField` (its sum taken in binary64) returns the same list with exactly one
group appended at the end; that group has empty values and errors; its id is 1 on
the empty list and otherwise the maximum existing id plus one, so it is strictly
greater than, and different from, every existing id. -/
theorem C3_addField_appends_fresh (fields : List Field)
    (hhi : ∀ f ∈ fields, f.id < 2 ^ 53) (hlo : fields = [] ∨ ∃ f ∈ fields, -2 ^ 53 ≤ f.id) :
    ∃ g : Field, addFieldNumber fields = fields ++ [g] ∧
      g.inputValue = "" ∧ g.selectValue = "" ∧ g.inputError = "" ∧ g.selectError = "" ∧
      (fields = [] → g.id = 1) ∧
      (fields ≠ [] → g.id - 1 ∈ ids fields ∧ ∀ f ∈ fields, f.id ≤ g.id - 1) ∧
      (∀ f ∈ fields, f.id < g.id) ∧ g.id ∉ ids fields := by
  refine ⟨_, rfl, rfl, rfl, rfl, rfl, ?_, ?_, ?_, ?_⟩ <;>
    simp only [newIdNumber_eq_newId_of_max fields hhi hlo]
  · intro h0
    subst h0
    exact newId_nil
  · intro h0
    simp only [newId_eq_of_ne_nil fields h0, add_sub_cancel_right]
    exact ⟨mathMax_mem _ (by simpa [ids] using h0),
      fun f hf => mathMax_ge _ _ (List.mem_map_of_mem _ hf)⟩
  · exact fun f hf => newId_gt fields f hf
  · exact newId_not_mem fields

/-- C3 amended, at a two-group list with ids 5 and 2: the appended group has id 6. -/
theorem C3_addField_appends_fresh_witness :
    (∀ f ∈ twoGroups, f.id < 2 ^ 53) ∧ (twoGroups = [] ∨ ∃ f ∈ twoGroups, -2 ^ 53 ≤ f.id) ∧
      ids (addFieldNumber twoGroups) = [5, 2, 6] ∧
      ∃ g : Field, addFieldNumber twoGroups = twoGroups ++ [g] ∧
        g.inputValue = "" ∧ g.selectValue = "" ∧ g.inputError = "" ∧ g.selectError = "" ∧
        (twoGroups = [] → g.id = 1) ∧
        (twoGroups ≠ [] → g.id - 1 ∈ ids twoGroups ∧ ∀ f ∈ twoGroups, f.id ≤ g.id - 1) ∧
        (∀ f ∈ twoGroups, f.id < g.id) ∧ g.id ∉ ids twoGroups :=
  ⟨by decide, by decide, by decide,
    C3_addField_appends_fresh twoGroups (by decide) (by decide)⟩

/-! ## Ids that existed earlier in a run -/

theorem removeField_dominates (fields : List Field) (id : Int)
    (h : removesMax { fields := fields, formSubmitted := false } (Event.removeField id) = false) :
    ∀ i ∈ ids fields, ∃ j ∈ ids (removeField fields id), i ≤ j := by
  intro i hi
  unfold removeField
  split
  · rename_i hl
    obtain ⟨f, hf, hfi⟩ := mem_of_mem_ids fields i hi
    by_cases hid : i = id
    · have hmem : id ∈ ids fields := hid ▸ hi
      have hl2 : 1 < fields.length := hl
      have hall : (ids fields).all (fun k => decide (k ≤ id)) = false := by
        simpa [removesMax, hl2, hmem] using h
      have hex : ∃ k ∈ ids fields, id < k := by
        by_contra hcon
        have : (ids fields).all (fun k => decide (k ≤ id)) = true := by
          rw [List.all_eq_true]
          intro k hk
          have : ¬ id < k := fun hlt => hcon ⟨k, hk, hlt⟩
          simpa using this
        rw [this] at hall
        exact Bool.noConfusion hall
      obtain ⟨k, hk, hlt⟩ := hex
      obtain ⟨g, hg, hgk⟩ := mem_of_mem_ids fields k hk
      have hgne : g.id ≠ id := by omega
      refine ⟨k, ?_, by omega⟩
      rw [← hgk]
      exact mem_ids_of_mem _ g (List.mem_filter.mpr ⟨hg, by simpa using hgne⟩)
    · have hfne : f.id ≠ id := by omega
      refine ⟨i, ?_, le_refl _⟩
      rw [← hfi]
      exact mem_ids_of_mem _ f (List.mem_filter.mpr ⟨hf, by simpa using hfne⟩)
  · exact ⟨i, hi, le_refl _⟩

theorem step_dominates (s : State) (e : Event) (h : removesMax s e = false) :
    ∀ i ∈ ids s.fields, ∃ j ∈ ids (step s e).fields, i ≤ j := by
  intro i hi
  cases e with
  | addField =>
    refine ⟨i, ?_, le_refl _⟩
    simp only [step, ids_addField, List.mem_append]
    exact Or.inl hi
  | removeField id => exact removeField_dominates s.fields id h i hi
  | handleInputChange id v =>
    exact ⟨i, by simpa only [step, ids_handleInputChange] using hi, le_refl _⟩
  | handleSelectChange id v =>
    exact ⟨i, by simpa only [step, ids_handleSelectChange] using hi, le_refl _⟩
  | handleSubmit =>
    exact ⟨i, by simpa only [step, handleSubmit, ids_validateForm] using hi, le_refl _⟩

theorem run_dominates (s : State) (evs : List Event) (h : keepsMax s evs = true) :
    ∀ i ∈ ids s.fields, ∃ j ∈ ids (run s evs).fields, i ≤ j := by
  induction evs generalizing s with
  | nil => exact fun i hi => ⟨i, hi, le_refl _⟩
  | cons e evs ih =>
    simp only [keepsMax, Bool.and_eq_true, Bool.not_eq_true'] at h
    intro i hi
    obtain ⟨j, hj, hij⟩ := step_dominates s e h.1 i hi
    obtain ⟨k, hk, hjk⟩ := ih (step s e) h.2 j hj
    exact ⟨k, hk, le_trans hij hjk⟩

theorem newId_le_of_removesMax (s : State) (id : Int) (hwf : WF s)
    (h : removesMax s (Event.removeField id) = true) :
    id ∈ ids s.fields ∧ newId (removeField s.fields id) ≤ id := by
  simp only [removesMax, Bool.and_eq_true, decide_eq_true_eq, List.all_eq_true] at h
  obtain ⟨⟨hl, hmem⟩, hall⟩ := h
  refine ⟨hmem, ?_⟩
  have hne : removeField s.fields id ≠ [] := removeField_ne_nil s.fields id hwf.1 hwf.2
  rw [newId_eq_of_ne_nil _ hne]
  have hne2 : ids (removeField s.fields id) ≠ [] := by simpa [ids] using hne
  obtain ⟨g, hg, hgid⟩ := mem_of_mem_ids _ _ (mathMax_mem _ hne2)
  have hg2 : g ∈ s.fields.filter (fun field => decide (field.id ≠ id)) := by
    have : removeField s.fields id = s.fields.filter (fun field => decide (field.id ≠ id)) := by
      simp [removeField, hl]
    rw [← this]
    exact hg
  obtain ⟨hgm, hgne⟩ := List.mem_filter.mp hg2
  have hgne2 : g.id ≠ id := by simpa using hgne
  have hle : g.id ≤ id := by simpa using hall g.id (mem_ids_of_mem _ g hgm)
  omega

theorem newId_gt_iff (fields : List Field) (hne : fields ≠ []) (i : Int) :
    i < newId fields ↔ ∃ g ∈ fields, i ≤ g.id := by
  constructor
  · intro h
    rw [newId_eq_of_ne_nil fields hne] at h
    have hne2 : ids fields ≠ [] := by simpa [ids] using hne
    obtain ⟨g, hg, hgid⟩ := mem_of_mem_ids fields _ (mathMax_mem (ids fields) hne2)
    exact ⟨g, hg, by omega⟩
  · rintro ⟨g, hg, hle⟩
    have := newId_gt fields g hg
    omega

/-- C10 amended: the group appended by `addField` has the id `newId`. In every run
from the initial state that id is strictly greater than the id of a group that was
in the list at an earlier point of the run, removed since or not, exactly when
that id is at most the largest id now in the list. This is so for every group in
the list at that moment, and for every group of an earlier point provided no
`removeField` since that point removed a group holding the largest id of the list.
When `removeField` removes the group holding the largest id, the id of the next
`addField` is not greater than the id of the removed group. -/
theorem C10_new_id_above_earlier_ids (evs evs2 : List Event) :
    ids (addField (run initial (evs ++ evs2)).fields) =
        ids (run initial (evs ++ evs2)).fields ++ [newId (run initial (evs ++ evs2)).fields] ∧
      (∀ f ∈ (run initial evs).fields,
        (f.id < newId (run initial (evs ++ evs2)).fields ↔
          ∃ g ∈ (run initial (evs ++ evs2)).fields, f.id ≤ g.id)) ∧
      (∀ f ∈ (run initial (evs ++ evs2)).fields,
        f.id < newId (run initial (evs ++ evs2)).fields) ∧
      (keepsMax (run initial evs) evs2 = true →
        ∀ f ∈ (run initial evs).fields, f.id < newId (run initial (evs ++ evs2)).fields) ∧
      (∀ id : Int, removesMax (run initial evs) (Event.removeField id) = true →
        id ∈ ids (run initial evs).fields ∧
          newId (run initial (evs ++ [Event.removeField id])).fields ≤ id) := by
  refine ⟨ids_addField _, ?_, fun f hf => newId_gt _ f hf, ?_, ?_⟩
  · intro f _
    exact newId_gt_iff _ (WF_run (evs ++ evs2)).1 f.id
  · intro h f hf
    obtain ⟨j, hj, hij⟩ := run_dominates (run initial evs) evs2 h f.id (mem_ids_of_mem _ f hf)
    rw [run_append]
    have := newId_gt_id _ j hj
    omega
  · intro id h
    rw [run_append]
    exact newId_le_of_removesMax (run initial evs) id (WF_run evs) h

/-- C10 amended, on the scenario: with ids 1, 2, 3 the removal of group 2 keeps the
largest id, and the next id 4 is above 1, 2 and 3; the removal of group 3 removes
the largest id, and the next id is not above 3. -/
theorem C10_new_id_above_earlier_ids_witness :
    keepsMax (run initial [Event.addField, Event.addField]) [Event.removeField 2] = true ∧
      newId (run initial ([Event.addField, Event.addField] ++ [Event.removeField 2])).fields = 4 ∧
      (∀ f ∈ (run initial [Event.addField, Event.addField]).fields,
        f.id < newId (run initial ([Event.addField, Event.addField] ++
          [Event.removeField 2])).fields) ∧
      removesMax (run initial [Event.addField, Event.addField]) (Event.removeField 3) = true ∧
      ((3 : Int) ∈ ids (run initial [Event.addField, Event.addField]).fields ∧
        newId (run initial ([Event.addField, Event.addField] ++
          [Event.removeField 3])).fields ≤ 3) :=
  ⟨by decide, by decide,
    (C10_new_id_above_earlier_ids [Event.addField, Event.addField]
      [Event.removeField 2]).2.2.2.1 (by decide),
    by decide,
    (C10_new_id_above_earlier_ids [Event.addField, Event.addField] []).2.2.2.2 3 (by decide)⟩

end DynamicForm
